import Mathlib

/-!
Verification development for the BOM → DD1750 converter (`app.py`,
`dd1750_core.py`).

The Python code is shallowly embedded: strings are `List Char` internally
(packed back into `String` at the record level), Python `int` is `Int`/`Nat`,
and every regular expression used by the source is replaced by an explicit
executable function implementing exactly what that pattern matches on the
ASCII inputs the program handles.  PDF extraction, drawing and page merging
are external collaborators; following the code, a source page is its list of
extracted tables plus its extracted text, a drawn page is its list of drawing
commands, and merging two pages concatenates their drawn content.
-/

set_option maxRecDepth 4096

namespace DD1750

/-! ## Character and string primitives (Python semantics) -/

/-- Python `\s` / `str.split()` whitespace for the ASCII inputs handled here. -/
def pyIsSpace (c : Char) : Bool :=
  c = ' ' || c = '\t' || c = '\n' || c = '\r' || c = '\x0b' || c = '\x0c'

/-- Python regex `\w` on ASCII text: letters, digits and underscore. -/
def isWordChar (c : Char) : Bool :=
  c.isAlphanum || c = '_'

/-- Left part of Python `str.strip()`. -/
def lstripL (l : List Char) : List Char :=
  l.dropWhile pyIsSpace

/-- Right part of Python `str.strip()`. -/
def rstripL (l : List Char) : List Char :=
  (l.reverse.dropWhile pyIsSpace).reverse

/-- Python `str.strip()` with no argument. -/
def stripL (l : List Char) : List Char :=
  rstripL (lstripL l)

/-- Python `str.strip(chars)`: drop characters of `cs` from both ends. -/
def stripSetL (cs : List Char) (l : List Char) : List Char :=
  ((l.dropWhile (· ∈ cs)).reverse.dropWhile (· ∈ cs)).reverse

/-- Python `str.upper()` on ASCII text. -/
def toUpperL (l : List Char) : List Char :=
  l.map Char.toUpper

/-- `_digits_only` / the digit filter of `_clean_nsn`: keep only digits. -/
def digitsOnlyL (l : List Char) : List Char :=
  l.filter Char.isDigit

/-- Numeric value of a digit string (Python `int` on an all-digit string). -/
def digitsVal (l : List Char) : Nat :=
  l.foldl (fun acc c => 10 * acc + (c.toNat - '0'.toNat)) 0

/-- Worker for `collapseWs`; the flag records that the previous character was
whitespace (so the single replacement `' '` was already emitted). -/
def collapseWsGo : Bool → List Char → List Char
  | _, [] => []
  | b, c :: t =>
    if pyIsSpace c then
      if b then collapseWsGo true t else ' ' :: collapseWsGo true t
    else
      c :: collapseWsGo false t

/-- Python `re.sub(r"\s+", " ", s)`: every whitespace run becomes one space. -/
def collapseWs (l : List Char) : List Char :=
  collapseWsGo false l

/-- Worker for `wordsL`; `cur` holds the current word reversed. -/
def wordsGo (cur : List Char) : List Char → List (List Char)
  | [] => if cur = [] then [] else [cur.reverse]
  | c :: t =>
    if pyIsSpace c then
      if cur = [] then wordsGo [] t else cur.reverse :: wordsGo [] t
    else
      wordsGo (c :: cur) t

/-- Python `str.split()` with no argument: whitespace-delimited words. -/
def wordsL (l : List Char) : List (List Char) :=
  wordsGo [] l

/-- Worker for `splitOnChar`; `acc` holds the current field reversed. -/
def splitOnCharGo (sep : Char) (acc : List Char) : List Char → List (List Char)
  | [] => [acc.reverse]
  | c :: t =>
    if c = sep then acc.reverse :: splitOnCharGo sep [] t
    else splitOnCharGo sep (c :: acc) t

/-- Python `str.split(sep)` for a one-character separator (keeps empties). -/
def splitOnChar (sep : Char) (l : List Char) : List (List Char) :=
  splitOnCharGo sep [] l

/-- Python `pat in s` substring test (for non-empty `pat`). -/
def containsL (pat : List Char) : List Char → Bool
  | [] => pat.isPrefixOf []
  | c :: t => pat.isPrefixOf (c :: t) || containsL pat t

/-- Python `" ".join(ws)`. -/
def joinWords (ws : List (List Char)) : List Char :=
  (ws.intersperse [' ']).flatten

/-- Fuelled worker for `replaceSub`. -/
def replaceSubGo (pat rep : List Char) : Nat → List Char → List Char
  | 0, l => l
  | _ + 1, [] => []
  | fuel + 1, c :: t =>
    if pat ≠ [] ∧ pat.isPrefixOf (c :: t) then
      rep ++ replaceSubGo pat rep fuel ((c :: t).drop pat.length)
    else
      c :: replaceSubGo pat rep fuel t

/-- Python `str.replace(pat, rep)` / `re.sub(pat, rep, s)` for a literal
pattern: non-overlapping left-to-right replacement of every occurrence.
The fuel `l.length + 1` is always sufficient since every step consumes at
least one character of a non-empty pattern match or one plain character. -/
def replaceSub (pat rep l : List Char) : List Char :=
  replaceSubGo pat rep (l.length + 1) l

/-- Python `int(token)` on a token already filtered to digits and `-`. -/
def pyIntOfFiltered (l : List Char) : Option Int :=
  match l with
  | [] => none
  | '-' :: ds =>
      if ds ≠ [] ∧ ds.all Char.isDigit then some (-(digitsVal ds : Int)) else none
  | ds =>
      if ds.all Char.isDigit then some (digitsVal ds : Int) else none

/-- `_as_int` from `app.py`: strip, drop everything outside `[0-9-]`, then
Python `int` (`None` on failure).  Note there is no magnitude bound here. -/
def asInt (l : List Char) : Option Int :=
  let t := stripL l
  if t = [] then none
  else
    let t := t.filter (fun c => c.isDigit || c = '-')
    if t = [] then none else pyIntOfFiltered t

/-- Worker for `findNsn`: scans maximal digit runs.  `startOk` records whether
the run currently being accumulated began at a `\b` word boundary, and `run`
holds its digits reversed. -/
def nsnScan (startOk : Bool) (run : List Char) : List Char → Option (List Char)
  | [] =>
      if startOk ∧ (run.length = 9 ∨ run.length = 10) then some run.reverse else none
  | c :: t =>
      if c.isDigit then nsnScan startOk (c :: run) t
      else
        if startOk ∧ (run.length = 9 ∨ run.length = 10) ∧ ¬ isWordChar c then
          some run.reverse
        else
          nsnScan (¬ isWordChar c) [] t

/-- Python `re.search(r"\b(\d{9,10})\b", s)`: the first maximal digit run of
length 9 or 10 delimited by word boundaries (a digit run of another length,
or one glued to a letter/digit/underscore, never matches). -/
def findNsn (l : List Char) : Option (List Char) :=
  nsnScan true [] l

/-- Python `re.match(r"^(.*\D)\s+(\d{1,6})$", l)`: the whole trailing digit
run (1–6 digits) is the quantity group, it must be preceded by at least one
whitespace character, and what stands before that single consumed whitespace
character must be non-empty and end in a non-digit.  Returns
`(group 1, group 2)`. -/
def lineQtyMatch (l : List Char) : Option (List Char × List Char) :=
  let rev := l.reverse
  let dsRev := rev.takeWhile Char.isDigit
  let restRev := rev.dropWhile Char.isDigit
  if dsRev = [] ∨ 6 < dsRev.length then none
  else
    match restRev with
    | [] => none
    | c :: t =>
        if pyIsSpace c then
          match t with
        | [] => none
        | d :: _ => if ¬ d.isDigit then some (t.reverse, dsRev.reverse) else none
        else none

/-- Python `re.sub(r"^[A-Z]\s+", "", l)`: drop a single leading capital letter
together with the whole whitespace run after it, when present. -/
def stripLv (l : List Char) : List Char :=
  match l with
  | c :: d :: t =>
      if ('A' ≤ c ∧ c ≤ 'Z') ∧ pyIsSpace d then (d :: t).dropWhile pyIsSpace
      else l
  | _ => l

/-! ## Data model -/

/-- `ItemRow` from `app.py` (the dicts built by `dd1750_core.py` carry the
same three fields). -/
structure ItemRow where
  description : String
  nsn : String
  qty : Int
deriving Repr, DecidableEq

/-- One source PDF page as the extraction collaborator presents it to
`parse_bom_pdf`: the tables found by `extract_tables` (each a list of rows of
cells) and the text returned by `extract_text`. -/
structure Page where
  tables : List (List (List String))
  text : String
deriving Repr, DecidableEq

/-- A drawing command issued to the canvas collaborator. -/
inductive DrawOp where
  | drawCentredString (x y : Int) (text : String)
  | drawString (x y : Int) (text : String)
deriving Repr, DecidableEq

/-! ## `dd1750_core.parse_items_from_rows` -/

/-- Noise substrings that make `parse_items_from_rows` skip a line. -/
def coreNoise : List String :=
  ["COMPONENT LISTING", "HAND RECEIPT", "LV", "DESCRIPTION", "WTY", "ARC",
   "CIIC", "UI", "SCMC", "AUTH QTY", "OH QTY"]

/-- Parser state of `parse_items_from_rows`: emitted items plus the
work-in-progress description and stock number.  Python's `current_desc` may
hold the empty string (falsy but not `None`); `Option` keeps the two apart. -/
structure CoreSt where
  items : List ItemRow
  curDesc : Option (List Char)
  curNsn : Option (List Char)
deriving Repr

/-- The inner `flush` of `parse_items_from_rows`. -/
def coreFlush (st : CoreSt) (qty : Option Int) : CoreSt :=
  match st.curDesc with
  | none => st
  | some d =>
      if d = [] then st
      else
        match qty with
        | none => { st with curDesc := none, curNsn := none }
        | some q =>
            if q ≤ 0 then { st with curDesc := none, curNsn := none }
            else
              { items := st.items ++
                  [⟨String.mk (stripL d), String.mk (stripL (st.curNsn.getD [])), q⟩],
                curDesc := none, curNsn := none }

/-- Quantity detection of `parse_items_from_rows`: the last token of the line
when it is all digits and its value lies in the sanity bound `0 ≤ q ≤ 500`. -/
def coreQty (line : List Char) : Option Int :=
  match (wordsL line).getLast? with
  | none => none
  | some tk =>
      if tk ≠ [] ∧ tk.all Char.isDigit then
        if digitsVal tk ≤ 500 then some (digitsVal tk : Int) else none
      else none

/-- Python truthiness of `current_desc` (`None` and `""` are falsy). -/
def descTruthy : Option (List Char) → Bool
  | some d => !d.isEmpty
  | none => false

/-- The `"NSN"` capture of `parse_items_from_rows`: the part after the last
`:` when the line has one, otherwise the line with every `"NSN"` removed. -/
def coreNsnMaybe (line : List Char) : List Char :=
  if 1 < (splitOnChar ':' line).length then stripL ((splitOnChar ':' line).getLastD [])
  else stripL (replaceSub "NSN".data [] line)

/-- The branch of `parse_items_from_rows` for a line whose uppercase starts
with `"NSN"`: keep its digits as the pending stock number when non-empty. -/
def coreNsnLine (st : CoreSt) (line : List Char) : CoreSt :=
  if digitsOnlyL (coreNsnMaybe line) ≠ [] then
    { st with curNsn := some (digitsOnlyL (coreNsnMaybe line)) }
  else st

/-- The description cleaning of `parse_items_from_rows`: strip the line and,
when it starts with `"BII-"`/`"COEI-"`, drop its first word (falling back to
the raw line when nothing remains). -/
def coreCleaned (line : List Char) : List Char :=
  if ("BII-".data).isPrefixOf (toUpperL (stripL line))
      ∨ ("COEI-".data).isPrefixOf (toUpperL (stripL line)) then
    if joinWords ((wordsL (stripL line)).drop 1) = [] then line
    else joinWords ((wordsL (stripL line)).drop 1)
  else stripL line

/-- The description-capture branch of `parse_items_from_rows`: only when no
description is pending and the line has at least 4 characters. -/
def coreCapture (st : CoreSt) (line : List Char) : CoreSt :=
  if st.curDesc = none ∧ 4 ≤ line.length then
    { st with curDesc := some (coreCleaned line) }
  else st

/-- One iteration of the line loop of `parse_items_from_rows`: skip noise
lines, handle `"NSN"` lines, flush on a quantity line when a (truthy)
description is pending, otherwise try to capture a description. -/
def coreStep (st : CoreSt) (line : List Char) : CoreSt :=
  if coreNoise.any (fun n => containsL n.data (toUpperL line)) then st
  else if ("NSN".data).isPrefixOf (toUpperL line) then coreNsnLine st line
  else if (coreQty line).isSome && descTruthy st.curDesc then coreFlush st (coreQty line)
  else coreCapture st line

/-- `parse_items_from_rows` from `dd1750_core.py`. -/
def parse_items_from_rows (rows : List String) : List ItemRow :=
  (rows.foldl (fun st line => coreStep st line.data) ⟨[], none, none⟩).items

/-! ## `app.py parse_bom_pdf` -/

/-- The inner `idx_of` of `parse_bom_pdf`: first option that occurs as a
substring of some header cell, scanned option-first then header-order. -/
def idxOf (header : List (List Char)) (opts : List String) : Option Nat :=
  opts.findSome? (fun opt => header.findIdx? (fun h => containsL opt.data h))

/-- The table branch of `parse_bom_pdf` for one extracted table.  A Python
row cell read past the row's length is modelled as the empty cell (the claims
only exercise rows as long as their header). -/
def tableRows (table : List (List String)) : List ItemRow :=
  if table = [] ∨ table.length < 2 then []
  else
    let header := (table.headD []).map (fun c => toUpperL (stripL c.data))
    match idxOf header ["DESCRIPTION"],
          idxOf header ["OH QTY", "OHQTY", "ON HAND", "ON-HAND", "OH  QTY"] with
    | some iDesc, some iOh =>
        let iMat := idxOf header ["MATERIAL", "NSN", "MAT"]
        (table.drop 1).foldl (fun acc r =>
          if r = [] then acc
          else
            let desc0 := stripL (r.getD iDesc "").data
            if desc0 = [] then acc
            else
              match asInt (r.getD iOh "").data with
              | none => acc
              | some oh =>
                  if oh = 0 then acc
                  else
                    let mat0 :=
                      match iMat with
                      | some i => digitsOnlyL (r.getD i "").data
                      | none => []
                    let mat :=
                      if mat0 = [] then (findNsn (desc0.filter (· ≠ ' '))).getD []
                      else mat0
                    let desc := stripL (collapseWs desc0)
                    if mat ≠ [] ∧ desc ≠ [] then
                      acc ++ [⟨String.mk desc, String.mk mat, oh⟩]
                    else acc) []
    | _, _ => []

/-- All records the table pass of `parse_bom_pdf` yields on one page. -/
def pageTableRecords (pg : Page) : List ItemRow :=
  pg.tables.foldl (fun acc t => acc ++ tableRows t) []

/-- The line preprocessing of `parse_bom_pdf`: split the page text into
lines, keep the non-blank ones, collapse whitespace and strip. -/
def pageLines (text : String) : List (List Char) :=
  ((splitOnChar '\n' text.data).filter (fun l => stripL l ≠ [])).map
    (fun l => stripL (collapseWs l))

/-- One iteration of the line loop of `parse_bom_pdf`: the record the line
contributes, if any. -/
def lineRecord (l : List Char) : Option ItemRow :=
  let ul := toUpperL l
  if ("LV ".data).isPrefixOf ul ∨ containsL "DESCRIPTION".data ul
      ∨ containsL "WTY".data ul ∨ containsL "ARC".data ul
      ∨ containsL "CIIC".data ul then none
  else
    match lineQtyMatch l with
    | none => none
    | some (g1, ds) =>
        let left := stripL g1
        let qty := digitsVal ds
        if qty = 0 then none
        else
          let left := stripLv left
          match findNsn (left.filter (· ≠ ' ')) with
          | none => none
          | some nsn =>
              let left := replaceSub nsn [] left
              let desc := stripSetL [' ', '-', ':'] (collapseWs left)
              if desc ≠ [] then some ⟨String.mk desc, String.mk nsn, (qty : Int)⟩
              else none

/-- All records the line pass of `parse_bom_pdf` yields on one page: nothing
when the text is blank or no line contains both "OH" and "QTY", otherwise
the per-line contributions in order. -/
def pageLineRecords (pg : Page) : List ItemRow :=
  if stripL pg.text.data = [] then []
  else
    let lines := pageLines pg.text
    if lines.any (fun l =>
        containsL "OH".data (toUpperL l) && containsL "QTY".data (toUpperL l)) then
      lines.foldl (fun acc l =>
        match lineRecord l with
        | some r => acc ++ [r]
        | none => acc) []
    else []

/-- The deduplication key of `parse_bom_pdf`: description uppercased, paired
with the stock number. -/
def dedupKey (r : ItemRow) : String × String :=
  (String.mk (toUpperL r.description.data), r.nsn)

/-- One step of the dedup loop of `parse_bom_pdf` over an insertion-ordered
association list (`dict` preserves first-insertion order of keys, and
overwriting a key keeps its position). -/
def dedupInsert (acc : List ((String × String) × ItemRow)) (r : ItemRow) :
    List ((String × String) × ItemRow) :=
  match acc.find? (fun p => decide (p.1 = dedupKey r)) with
  | none => acc ++ [(dedupKey r, r)]
  | some p =>
      if p.2.qty < r.qty then
        acc.map (fun q => if q.1 = dedupKey r then (dedupKey r, r) else q)
      else acc

/-- The dedup pass of `parse_bom_pdf` (lines 143–149 of `app.py`). -/
def dedupRows (rows : List ItemRow) : List ItemRow :=
  (rows.foldl dedupInsert []).map Prod.snd

/-- The page loop of `parse_bom_pdf`: table records first, then (always, and
regardless of what the tables yielded) the line-pass records of the page. -/
def allRows (pages : List Page) : List ItemRow :=
  pages.foldl (fun acc pg => acc ++ pageTableRecords pg ++ pageLineRecords pg) []

/-- `parse_bom_pdf` from `app.py`; `start` is its `start_page` argument
(the loop runs over `pdf.pages[start_page:]`). -/
def parse_bom_pdf (pages : List Page) (start : Nat) : List ItemRow :=
  dedupRows (allRows (pages.drop start))

/-! ## `dd1750_core` rendering: `normalize_for_wrap` and `textwrap.wrap` -/

/-- The comma loop of `normalize_for_wrap`: after every `','` whose successor
exists and is not a space, insert a space. -/
def commaSpace : List Char → List Char
  | [] => []
  | [c] => [c]
  | c :: d :: t =>
      if c = ',' ∧ d ≠ ' ' then c :: ' ' :: commaSpace (d :: t)
      else c :: commaSpace (d :: t)

/-- `normalize_for_wrap` from `dd1750_core.py`. -/
def normalize_for_wrap (s : List Char) : List Char :=
  stripL (commaSpace (replaceSub ", ".data ",".data s))

/-- `textwrap`'s `_munge_whitespace` with the default options, on tab-free
input: every whitespace character becomes a space. -/
def mungeWs (l : List Char) : List Char :=
  l.map (fun c => if pyIsSpace c then ' ' else c)

/-- Worker for `chunksOf`: groups a munged text into maximal runs of spaces
and of non-spaces (`curRev` is the current run reversed, `sp` its kind). -/
def chunksGo (curRev : List Char) (sp : Bool) : List Char → List (List Char)
  | [] => [curRev.reverse]
  | c :: t =>
      if (c = ' ') = (sp = true) then chunksGo (c :: curRev) sp t
      else curRev.reverse :: chunksGo [c] (c = ' ') t

/-- `textwrap`'s `_split` with `break_on_hyphens=False`: the text as the list
of its maximal space runs and word runs, in order. -/
def chunksOf : List Char → List (List Char)
  | [] => []
  | c :: t => chunksGo [c] (c = ' ') t

/-- The inner packing `while` of `textwrap._wrap_chunks`: move chunks from
the stack onto the current line while the line stays within `width`.
Returns the line chunks, their total length, and the remaining stack. -/
def packLine (width : Nat) (cur : List (List Char)) (curLen : Nat) :
    List (List Char) → List (List Char) × Nat × List (List Char)
  | [] => (cur, curLen, [])
  | ch :: rest =>
      if curLen + ch.length ≤ width then
        packLine width (cur ++ [ch]) (curLen + ch.length) rest
      else (cur, curLen, ch :: rest)

/-- Fuelled main loop of `textwrap._wrap_chunks` with the options used by
`draw_wrapped_description` (`width` given, `break_long_words=True`,
`break_on_hyphens=False`, default `drop_whitespace`, no indents, no
`max_lines`).  Each iteration consumes at least one chunk or at least one
character of an over-long chunk, so fuel `total characters + number of
chunks + 1` always reaches the empty stack. -/
def wrapChunksGo (width : Nat) :
    Nat → List (List Char) → List (List Char) → List (List Char)
  | 0, acc, _ => acc
  | _ + 1, acc, [] => acc
  | fuel + 1, acc, ch₀ :: rest₀ =>
      -- drop a leading whitespace chunk on every line but the first
      let stack := if stripL ch₀ = [] ∧ acc ≠ [] then rest₀ else ch₀ :: rest₀
      match stack with
      | [] => acc
      | _ =>
          let (cur, curLen, stack) := packLine width [] 0 stack
          -- a chunk longer than the whole width is broken to fill the line
          let (cur, stack) :=
            match stack with
            | ch :: rest =>
                if width < ch.length then
                  (cur ++ [ch.take (width - curLen)], ch.drop (width - curLen) :: rest)
                else (cur, ch :: rest)
            | [] => (cur, [])
          -- drop a trailing whitespace chunk
          let cur :=
            match cur.getLast? with
            | some last => if stripL last = [] then cur.dropLast else cur
            | none => cur
          let acc := if cur ≠ [] then acc ++ [cur.flatten] else acc
          wrapChunksGo width fuel acc stack

/-- `textwrap.wrap(s, width, break_long_words=True, break_on_hyphens=False)`
as called by `draw_wrapped_description`. -/
def pyWrap (width : Nat) (s : List Char) : List (List Char) :=
  let chunks := chunksOf (mungeWs s)
  wrapChunksGo width (s.length + chunks.length + 1) [] chunks

/-- `DESC_MAX_WIDTH_CHARS` from `dd1750_core.py`. -/
def DESC_MAX_WIDTH_CHARS : Nat := 56

/-- The wrapped description lines of `draw_wrapped_description` before the
two-line cap: `textwrap.wrap` of the normalized text, with `[""]` replacing
an empty result. -/
def wrapLines (desc : List Char) : List (List Char) :=
  let lines := pyWrap DESC_MAX_WIDTH_CHARS (normalize_for_wrap desc)
  if lines = [] then [[]] else lines

/-- The two-line cap of `draw_wrapped_description`: keep the first
`MAX_DESC_LINES = 2` lines and, when lines were cut and the kept second line
is longer than 3 characters, replace its last 3 characters by `"..."`. -/
def truncLines (lines : List (List Char)) : List (List Char) :=
  if 2 < lines.length then
    match lines with
    | a :: b :: _ =>
        [a, if 3 < b.length then b.take (b.length - 3) ++ ['.', '.', '.'] else b]
    | _ => lines.take 2
  else lines

/-- The description lines actually drawn by `draw_wrapped_description`. -/
def wrappedDescLines (desc : List Char) : List (List Char) :=
  truncLines (wrapLines desc)

/-- `draw_wrapped_description` from `dd1750_core.py` as the list of drawing
commands it issues: first line at `y`, second (if any) at `y - 9`, and the
`"NSN: ..."` sub-line at `y - 18` only when the stock number is non-empty. -/
def draw_wrapped_description (x y : Int) (desc nsn : String) : List DrawOp :=
  let lines := wrappedDescLines desc.data
  [DrawOp.drawString x y (String.mk (lines.headD []))]
    ++ (if 1 < lines.length then
          [DrawOp.drawString x (y - 9) (String.mk (lines.getD 1 []))]
        else [])
    ++ (if nsn ≠ "" then [DrawOp.drawString x (y - 18) ("NSN: " ++ nsn)] else [])

/-! ## Canvas, overlay building and template merging -/

/-- Layout constants of `dd1750_core.py`. -/
def ROW_HEIGHT : Int := 19
def TOP_Y : Int := 655
def BOTTOM_Y : Int := 110
def X_BOX_CENTER : Int := 70
def X_DESC_LEFT : Int := 110
def X_UNIT_CENTER : Int := 348
def X_INITIAL_CENTER : Int := 405
def X_SPARES_CENTER : Int := 468
def X_TOTAL_CENTER : Int := 526

/-- A reportlab canvas: the pages already ended by `showPage` plus the
commands drawn on the current page. -/
structure CanvasSt where
  finished : List (List DrawOp)
  cur : List DrawOp
deriving Repr, DecidableEq

/-- `canvas.save()`: reportlab emits the current page if it has content or
if no page was emitted yet (a virgin canvas saves as one blank page). -/
def canvasSave (c : CanvasSt) : List (List DrawOp) :=
  if c.cur ≠ [] ∨ c.finished = [] then c.finished ++ [c.cur] else c.finished

/-- State of the item loop of `generate_dd1750_from_pdf`. -/
structure GenSt where
  canvas : CanvasSt
  y : Int
  boxNo : Nat
deriving Repr

/-- One iteration of the item loop of `generate_dd1750_from_pdf`. -/
def genStep (st : GenSt) (item : ItemRow) : GenSt :=
  if item.qty ≤ 0 then st
  else
    let st :=
      if st.y < BOTTOM_Y + 28 then
        { st with canvas := ⟨st.canvas.finished ++ [st.canvas.cur], []⟩, y := TOP_Y }
      else st
    let rowOps :=
      [DrawOp.drawCentredString X_BOX_CENTER st.y (toString st.boxNo)]
        ++ draw_wrapped_description X_DESC_LEFT st.y item.description item.nsn
        ++ [DrawOp.drawCentredString X_UNIT_CENTER st.y "EA",
            DrawOp.drawCentredString X_INITIAL_CENTER st.y (toString item.qty),
            DrawOp.drawCentredString X_SPARES_CENTER st.y "0",
            DrawOp.drawCentredString X_TOTAL_CENTER st.y (toString item.qty)]
    { canvas := ⟨st.canvas.finished, st.canvas.cur ++ rowOps⟩,
      y := st.y - ROW_HEIGHT, boxNo := st.boxNo + 1 }

/-- `merge_template` from `dd1750_core.py`: the base page is **not** copied;
`merge_page` appends each overlay's content to the same base page object,
and `add_page` clones the page's current state into the writer. -/
def merge_template (basePage : List DrawOp) (overlayPages : List (List DrawOp)) :
    List (List DrawOp) :=
  (overlayPages.foldl
    (fun (st : List DrawOp × List (List DrawOp)) ov =>
      let merged := st.1 ++ ov
      (merged, st.2 ++ [merged]))
    (basePage, [])).2

/-- `generate_dd1750_from_pdf` from `dd1750_core.py`: parse the extracted
rows, draw the overlay document, merge it onto the template, and return the
items together with the overlay document and the output document it writes
(both files are written unconditionally). -/
def generate_dd1750_from_pdf (rows : List String) (templateBase : List DrawOp) :
    List ItemRow × List (List DrawOp) × List (List DrawOp) :=
  let items := parse_items_from_rows rows
  let st := items.foldl genStep ⟨⟨[], []⟩, TOP_Y, 1⟩
  let overlayPages := canvasSave st.canvas
  (items, overlayPages, merge_template templateBase overlayPages)

/-- `merge_overlay_on_template` from `app.py`: the template's first page is
copied afresh (`base.copy()`) for every overlay page before merging. -/
def merge_overlay_on_template (basePage : List DrawOp)
    (overlayPages : List (List DrawOp)) : List (List DrawOp) :=
  overlayPages.map (fun p => basePage ++ p)

/-- `_wrap_desc` from `app.py`.  Its line splitter is reportlab's
`simpleSplit` (font-metric pixel widths, an external drawing collaborator),
so the split is a parameter. -/
def wrapDescApp (split : String → List String) (desc : String) : List String :=
  let lines := split desc
  if lines.length ≤ 2 then lines
  else
    match lines with
    | a :: b :: _ => [a, if 3 < b.length then b.dropRight 3 ++ "..." else b]
    | _ => lines.take 2

/-- State of the item loop of `build_overlay` in `app.py`. -/
structure OvSt where
  canvas : CanvasSt
  y : Int
  idx : Nat
deriving Repr

/-- One iteration of `build_overlay`'s inner loop: start a fresh page when
the next row would cross the bottom margin, then draw the row. -/
def overlayStep (split : String → List String) (st : OvSt) (it : ItemRow) : OvSt :=
  let st :=
    if st.y - 24 < 95 then
      { st with canvas := ⟨st.canvas.finished ++ [st.canvas.cur], []⟩, y := 525 }
    else st
  let descLines := wrapDescApp split (String.mk (toUpperL it.description.data))
  let rowOps :=
    [DrawOp.drawCentredString 85 (st.y - 15) (toString (st.idx + 1)),
     DrawOp.drawString 125 (st.y - 10) (descLines.headD "")]
      ++ (if 1 < descLines.length then
            [DrawOp.drawString 125 (st.y - 21) (descLines.getD 1 "")]
          else [])
      ++ [DrawOp.drawString 125 (st.y - 33) ("NSN: " ++ it.nsn),
          DrawOp.drawCentredString 430 (st.y - 15) "EA",
          DrawOp.drawCentredString 485 (st.y - 15) (toString it.qty),
          DrawOp.drawCentredString 535 (st.y - 15) "0",
          DrawOp.drawCentredString 585 (st.y - 15) (toString it.qty)]
  { canvas := ⟨st.canvas.finished, st.canvas.cur ++ rowOps⟩,
    y := st.y - 24, idx := st.idx + 1 }

/-- `build_overlay` from `app.py`.  With no items the outer `while` never
runs and `save()` emits one blank page; otherwise the final `showPage` ends
the last page and `save()` adds nothing. -/
def build_overlay (split : String → List String) (items : List ItemRow) :
    List (List DrawOp) :=
  match items with
  | [] => [[]]
  | _ =>
      let st := items.foldl (overlayStep split) ⟨⟨[], []⟩, 525, 0⟩
      st.canvas.finished ++ [st.canvas.cur]

/-! ## The Flask route -/

/-- What the `index` POST handler returns. -/
inductive IndexResponse where
  | errorPage (msg : String)
  | pdfDownload (doc : List (List DrawOp))
deriving Repr, DecidableEq

/-- The empty-result message of `app.py`. -/
def emptyMsg : String :=
  "No items parsed from BOM. If this BOM is scanned, convert to a text PDF or provide an Excel export."

/-- The POST branch of `index` in `app.py` after both uploads were read:
parse, and either report the empty result (building no document at all) or
build the overlay and send the merged PDF. -/
def indexPost (split : String → List String) (pages : List Page) (start : Nat)
    (templateBase : List DrawOp) : IndexResponse :=
  let items := parse_bom_pdf pages start
  if items = [] then .errorPage emptyMsg
  else .pdfDownload (merge_overlay_on_template templateBase (build_overlay split items))

/-! ## Invariants of the dedup pass -/

/-- Invariant of the dedup loop after consuming `done`: every stored entry
is keyed by its record's dedup key, holds a consumed record that dominates
all consumed records of its key, every consumed record's key is stored, and
stored keys are pairwise distinct. -/
def GoodAcc (done : List ItemRow) (acc : List ((String × String) × ItemRow)) : Prop :=
  (∀ p ∈ acc, p.1 = dedupKey p.2 ∧ p.2 ∈ done ∧
      ∀ r' ∈ done, dedupKey r' = p.1 → r'.qty ≤ p.2.qty)
    ∧ (∀ r ∈ done, ∃ p ∈ acc, p.1 = dedupKey r)
    ∧ (acc.map Prod.fst).Nodup

theorem goodAcc_insert {done acc} (r : ItemRow) (h : GoodAcc done acc) :
    GoodAcc (done ++ [r]) (dedupInsert acc r) := by
  obtain ⟨h1, h2, h3⟩ := h
  unfold dedupInsert
  cases hfind : acc.find? (fun p => decide (p.1 = dedupKey r)) with
  | none =>
      have hnone : ∀ p ∈ acc, p.1 ≠ dedupKey r := by
        intro p hp
        have := List.find?_eq_none.mp hfind p hp
        simpa using this
      refine ⟨?_, ?_, ?_⟩
      · intro p hp
        rcases List.mem_append.mp hp with hp' | hp'
        · obtain ⟨hk, hd, hmax⟩ := h1 p hp'
          refine ⟨hk, List.mem_append_left _ hd, ?_⟩
          intro r' hr' hkr'
          rcases List.mem_append.mp hr' with hr'' | hr''
          · exact hmax r' hr'' hkr'
          · have hrr : r' = r := by simpa using hr''
            exact absurd (by rw [← hrr] ; exact hkr'.symm) (hnone p hp')
        · have hpe : p = (dedupKey r, r) := by simpa using hp'
          refine ⟨by rw [hpe], by rw [hpe] ; exact List.mem_append_right _ (by simp), ?_⟩
          intro r' hr' hkr'
          rcases List.mem_append.mp hr' with hr'' | hr''
          · exfalso
            obtain ⟨q, hq, hqk⟩ := h2 r' hr''
            refine hnone q hq ?_
            rw [hqk, hkr', hpe]
          · have hrr : r' = r := by simpa using hr''
            rw [hrr, hpe]
      · intro r' hr'
        rcases List.mem_append.mp hr' with hr'' | hr''
        · obtain ⟨p, hp, hpk⟩ := h2 r' hr''
          exact ⟨p, List.mem_append_left _ hp, hpk⟩
        · have hrr : r' = r := by simpa using hr''
          exact ⟨(dedupKey r, r), List.mem_append_right _ (by simp), by rw [hrr]⟩
      · rw [List.map_append]
        refine List.Nodup.append h3 (by simp) ?_
        intro k hk hk'
        obtain ⟨p, hp, hpk⟩ := List.mem_map.mp hk
        have hke : k = dedupKey r := by simpa using hk'
        exact hnone p hp (by rw [hpk, hke])
  | some p =>
      have hp : p ∈ acc := List.mem_of_find?_eq_some hfind
      have hpk : p.1 = dedupKey r := by
        have := List.find?_some hfind
        simpa using this
      have huniq : ∀ q ∈ acc, q.1 = dedupKey r → q = p := by
        intro q hq hqk
        exact List.inj_on_of_nodup_map h3 hq hp (hqk.trans hpk.symm)
      by_cases hlt : p.2.qty < r.qty
      · simp only [if_pos hlt]
        have hfst : ∀ q : (String × String) × ItemRow,
            ((if q.1 = dedupKey r then (dedupKey r, r) else q) :
              (String × String) × ItemRow).1 = q.1 := by
          intro q
          by_cases hq : q.1 = dedupKey r <;> simp [hq]
        refine ⟨?_, ?_, ?_⟩
        · intro q' hq'
          obtain ⟨q, hq, hq'e⟩ := List.mem_map.mp hq'
          by_cases hqk : q.1 = dedupKey r
          · have hq'v : q' = (dedupKey r, r) := by rw [← hq'e] ; simp [hqk]
            refine ⟨by rw [hq'v], by rw [hq'v] ; exact List.mem_append_right _ (by simp), ?_⟩
            intro r' hr' hkr'
            rcases List.mem_append.mp hr' with hr'' | hr''
            · obtain ⟨_, _, hmax⟩ := h1 p hp
              have h1' : r'.qty ≤ p.2.qty := by
                refine hmax r' hr'' ?_
                rw [hkr', hq'v, hpk]
              rw [hq'v]
              exact le_of_lt (lt_of_le_of_lt h1' hlt)
            · have hrr : r' = r := by simpa using hr''
              rw [hrr, hq'v]
          · have hq'v : q' = q := by rw [← hq'e] ; simp [hqk]
            obtain ⟨hk, hd, hmax⟩ := h1 q hq
            refine ⟨by rw [hq'v] ; exact hk,
              by rw [hq'v] ; exact List.mem_append_left _ hd, ?_⟩
            intro r' hr' hkr'
            rcases List.mem_append.mp hr' with hr'' | hr''
            · rw [hq'v]
              exact hmax r' hr'' (by rw [hkr', hq'v])
            · exfalso
              have hrr : r' = r := by simpa using hr''
              refine hqk ?_
              rw [← hq'v, ← hkr', hrr]
        · intro r' hr'
          rcases List.mem_append.mp hr' with hr'' | hr''
          · obtain ⟨q, hq, hqk⟩ := h2 r' hr''
            refine ⟨(if q.1 = dedupKey r then (dedupKey r, r) else q),
              List.mem_map.mpr ⟨q, hq, rfl⟩, ?_⟩
            rw [hfst q]
            exact hqk
          · have hrr : r' = r := by simpa using hr''
            refine ⟨(if p.1 = dedupKey r then (dedupKey r, r) else p),
              List.mem_map.mpr ⟨p, hp, rfl⟩, ?_⟩
            rw [hfst p, hrr]
            exact hpk
        · have hmm : (acc.map (fun q =>
              if q.1 = dedupKey r then (dedupKey r, r) else q)).map Prod.fst
              = acc.map Prod.fst := by
            rw [List.map_map]
            exact List.map_congr_left (fun q _ => hfst q)
          rw [hmm]
          exact h3
      · simp only [if_neg hlt]
        have hler : r.qty ≤ p.2.qty := le_of_not_lt hlt
        refine ⟨?_, ?_, h3⟩
        · intro q hq
          obtain ⟨hk, hd, hmax⟩ := h1 q hq
          refine ⟨hk, List.mem_append_left _ hd, ?_⟩
          intro r' hr' hkr'
          rcases List.mem_append.mp hr' with hr'' | hr''
          · exact hmax r' hr'' hkr'
          · have hrr : r' = r := by simpa using hr''
            have hqp : q = p := huniq q hq (by rw [← hkr', hrr])
            rw [hrr, hqp]
            exact hler
        · intro r' hr'
          rcases List.mem_append.mp hr' with hr'' | hr''
          · exact h2 r' hr''
          · have hrr : r' = r := by simpa using hr''
            exact ⟨p, hp, by rw [hrr] ; exact hpk⟩

theorem goodAcc_foldl :
    ∀ (rows : List ItemRow) (done : List ItemRow) acc, GoodAcc done acc →
      GoodAcc (done ++ rows) (rows.foldl dedupInsert acc) := by
  intro rows
  induction rows with
  | nil => intro done acc h; simpa using h
  | cons r rs ih =>
      intro done acc h
      have h' := ih (done ++ [r]) (dedupInsert acc r) (goodAcc_insert r h)
      simpa [List.append_assoc] using h'

theorem dedup_good (rows : List ItemRow) :
    GoodAcc rows (rows.foldl dedupInsert []) := by
  have h := goodAcc_foldl rows [] [] ⟨by simp, by simp, by simp⟩
  simpa using h

/-! ## Quantity bounds of the core parser -/

theorem coreQty_bound {l : List Char} {q : Int} (h : coreQty l = some q) :
    0 ≤ q ∧ q ≤ 500 := by
  unfold coreQty at h
  split at h
  · exact absurd h (by simp)
  · rename_i tk _
    split at h
    · split at h
      · have hq : q = (digitsVal tk : Int) := by
          injection h with h'
          exact h'.symm
        rename_i hb
        constructor
        · rw [hq] ; exact Int.ofNat_nonneg _
        · rw [hq] ; exact_mod_cast hb
      · exact absurd h (by simp)
    · exact absurd h (by simp)

theorem coreFlush_mem {st : CoreSt} {qty : Option Int} {r : ItemRow}
    (h : r ∈ (coreFlush st qty).items) :
    r ∈ st.items ∨ ∃ q, qty = some q ∧ 0 < q ∧ r.qty = q := by
  obtain ⟨items, curDesc, curNsn⟩ := st
  cases curDesc with
  | none => exact Or.inl h
  | some d =>
      cases qty with
      | none =>
          simp only [coreFlush] at h
          split at h <;> exact Or.inl h
      | some q =>
          simp only [coreFlush] at h
          by_cases hde : d = []
          · rw [if_pos hde] at h ; exact Or.inl h
          · rw [if_neg hde] at h
            by_cases hq0 : q ≤ 0
            · rw [if_pos hq0] at h ; exact Or.inl h
            · rw [if_neg hq0] at h
              rcases List.mem_append.mp h with h | h
              · exact Or.inl h
              · have he := List.mem_singleton.mp h
                exact Or.inr ⟨q, rfl, lt_of_not_le hq0, by rw [he]⟩

theorem coreNsnLine_items (st : CoreSt) (line : List Char) :
    (coreNsnLine st line).items = st.items := by
  unfold coreNsnLine
  split <;> rfl

theorem coreCapture_items (st : CoreSt) (line : List Char) :
    (coreCapture st line).items = st.items := by
  unfold coreCapture
  split <;> rfl

theorem coreStep_mem {st : CoreSt} {line : List Char} {r : ItemRow}
    (h : r ∈ (coreStep st line).items) :
    r ∈ st.items ∨ ∃ q, 0 < q ∧ q ≤ 500 ∧ r.qty = q := by
  unfold coreStep at h
  split at h
  · exact Or.inl h
  · split at h
    · rw [coreNsnLine_items] at h
      exact Or.inl h
    · split at h
      · rcases coreFlush_mem h with h' | ⟨q, hq, hq0, hqr⟩
        · exact Or.inl h'
        · obtain ⟨_, hle⟩ := coreQty_bound hq
          exact Or.inr ⟨q, hq0, hle, hqr⟩
      · rw [coreCapture_items] at h
        exact Or.inl h

theorem parse_items_foldl_bound :
    ∀ (rows : List String) (st : CoreSt),
      (∀ r ∈ st.items, 1 ≤ r.qty ∧ r.qty ≤ 500) →
      ∀ r ∈ (rows.foldl (fun st line => coreStep st line.data) st).items,
        1 ≤ r.qty ∧ r.qty ≤ 500 := by
  intro rows
  induction rows with
  | nil => intro st h r hr ; exact h r hr
  | cons l ls ih =>
      intro st h r hr
      refine ih (coreStep st l.data) ?_ r hr
      intro r' hr'
      rcases coreStep_mem hr' with h' | ⟨q, hq0, hle, hqr⟩
      · exact h r' h'
      · exact ⟨by rw [hqr] ; exact hq0, by rw [hqr] ; exact hle⟩

/-! ## Membership in the page loop -/

theorem foldl_append_flatten (g : Page → List ItemRow) :
    ∀ (pages : List Page) (acc : List ItemRow),
      pages.foldl (fun a pg => a ++ g pg) acc = acc ++ (pages.map g).flatten := by
  intro pages
  induction pages with
  | nil => intro acc ; simp
  | cons pg pgs ih => intro acc ; simp [ih, List.append_assoc]

theorem allRows_eq (pages : List Page) :
    allRows pages =
      (pages.map (fun pg => pageTableRecords pg ++ pageLineRecords pg)).flatten := by
  unfold allRows
  have he : (fun (a : List ItemRow) (pg : Page) =>
      a ++ pageTableRecords pg ++ pageLineRecords pg)
      = fun a pg => a ++ (pageTableRecords pg ++ pageLineRecords pg) := by
    funext a pg
    rw [List.append_assoc]
  rw [he, foldl_append_flatten]
  simp

theorem mem_allRows_of_line {pages : List Page} {pg : Page} {r : ItemRow}
    (hpg : pg ∈ pages) (hr : r ∈ pageLineRecords pg) : r ∈ allRows pages := by
  rw [allRows_eq]
  exact List.mem_flatten.mpr
    ⟨pageTableRecords pg ++ pageLineRecords pg,
     List.mem_map.mpr ⟨pg, hpg, rfl⟩, List.mem_append_right _ hr⟩

/-! ## The two-line cap -/

theorem truncLines_spec (lines : List (List Char)) :
    (truncLines lines).length ≤ 2
    ∧ (2 < lines.length →
        (truncLines lines).length = 2
        ∧ (3 < (lines.getD 1 []).length →
            ∃ p, (truncLines lines).getD 1 [] = p ++ ['.', '.', '.'])) := by
  unfold truncLines
  by_cases h : 2 < lines.length
  · rw [if_pos h]
    match lines, h with
    | a :: b :: c :: t, _ =>
        refine ⟨by simp, fun _ => ⟨by simp, fun hb => ?_⟩⟩
        simp only [List.getD_cons_succ, List.getD_cons_zero] at hb ⊢
        rw [if_pos hb]
        exact ⟨b.take (b.length - 3), rfl⟩
  · rw [if_neg h]
    exact ⟨by omega, fun h' => absurd h' h⟩

/-! ## Claims -/

/-- Claim C1.  The claim states that every record emitted by `parse_bom_pdf`
or `parse_items_from_rows` has a quantity of at least 1 and in particular
that no negative quantity ever appears.  The code violates this: `_as_int`
keeps `-` when coercing an on-hand cell and the table path of
`parse_bom_pdf` drops only a quantity that is exactly 0, so an on-hand cell
reading `"-3"` is emitted as a record with quantity `-3`. -/
theorem c1_negative_qty_eval :
    parse_bom_pdf
        [⟨[[["DESCRIPTION", "MATERIAL", "OH QTY"],
            ["CABLE ASSEMBLY", "012345678", "-3"]]], ""⟩] 0
      = [⟨"CABLE ASSEMBLY", "012345678", -3⟩]
    ∧ (-3 : Int) < 1 := by
  constructor
  · decide
  · decide

/-- Claim C2, counterexample.  A table row with non-empty description
`"WIDGET"` and valid quantity 4 but no recoverable stock number is **not**
emitted by `parse_bom_pdf`: its final guard requires a non-empty material,
so the parse yields no record at all. -/
theorem c2_counterexample :
    parse_bom_pdf [⟨[[["LV", "DESCRIPTION", "OH QTY"], ["B", "WIDGET", "4"]]], ""⟩] 0
      = [] := by
  decide

/-- Claim C2, amended.  Only `parse_items_from_rows` emits a record when no
stock number was recovered: the record carries the empty stock-number string,
and `draw_wrapped_description` then draws no `"NSN:"` sub-line.  In
`parse_bom_pdf` (both the table and the line path) such rows are dropped. -/
theorem c2_amended :
    parse_items_from_rows ["CABLE ASSEMBLY", "X U EA 9G 3"]
      = [⟨"CABLE ASSEMBLY", "", 3⟩]
    ∧ ∀ (x y : Int) (desc : String),
        draw_wrapped_description x y desc "" =
          [DrawOp.drawString x y (String.mk ((wrappedDescLines desc.data).headD []))]
            ++ (if 1 < (wrappedDescLines desc.data).length then
                  [DrawOp.drawString x (y - 9)
                    (String.mk ((wrappedDescLines desc.data).getD 1 []))]
                else []) := by
  constructor
  · decide
  · intro x y desc
    simp [draw_wrapped_description]

/-- Claim C3.  After all pages are processed, `parse_bom_pdf` deduplicates
by the key (description uppercased, stock number): every output record is an
input record whose quantity dominates all input records of its key, at most
one output record carries any key, and the concrete two-page scenario with
quantities 2 and 5 on the same key yields the single record with quantity
5. -/
theorem c3_dedup_keeps_max :
    (∀ (rows : List ItemRow) (r : ItemRow), r ∈ dedupRows rows →
        r ∈ rows ∧ ∀ r' ∈ rows, dedupKey r' = dedupKey r → r'.qty ≤ r.qty)
    ∧ (∀ (rows : List ItemRow) (r₁ r₂ : ItemRow), r₁ ∈ dedupRows rows →
        r₂ ∈ dedupRows rows → dedupKey r₁ = dedupKey r₂ → r₁ = r₂)
    ∧ parse_bom_pdf
        [⟨[[["DESCRIPTION", "MATERIAL", "OH QTY"],
            ["CABLE ASSEMBLY", "012345678", "2"]]], ""⟩,
         ⟨[[["DESCRIPTION", "MATERIAL", "OH QTY"],
            ["CABLE ASSEMBLY", "012345678", "5"]]], ""⟩] 0
        = [⟨"CABLE ASSEMBLY", "012345678", 5⟩] := by
  refine ⟨?_, ?_, by decide⟩
  · intro rows r hr
    obtain ⟨h1, _, _⟩ := dedup_good rows
    obtain ⟨p, hp, hpr⟩ := List.mem_map.mp hr
    obtain ⟨hk, hd, hmax⟩ := h1 p hp
    refine ⟨by rw [← hpr] ; exact hd, ?_⟩
    intro r' hr' hkr'
    have h' := hmax r' hr' (by rw [hkr', ← hpr, ← hk])
    rw [← hpr]
    exact h'
  · intro rows r₁ r₂ h₁ h₂ hk12
    obtain ⟨h1, _, h3⟩ := dedup_good rows
    obtain ⟨p, hp, hpr⟩ := List.mem_map.mp h₁
    obtain ⟨q, hq, hqr⟩ := List.mem_map.mp h₂
    obtain ⟨hkp, _, _⟩ := h1 p hp
    obtain ⟨hkq, _, _⟩ := h1 q hq
    have hpq : p = q := by
      refine List.inj_on_of_nodup_map h3 hp hq ?_
      rw [hkp, hkq, hpr, hqr, hk12]
    rw [← hpr, ← hqr, hpq]

/-- Claim C3 witness: the dedup theorem applied to the concrete list with
quantities 2 and 5 on the same key. -/
theorem c3_witness :
    ((⟨"CABLE ASSEMBLY", "012345678", 5⟩ : ItemRow)
        ∈ [(⟨"CABLE ASSEMBLY", "012345678", 2⟩ : ItemRow),
           ⟨"CABLE ASSEMBLY", "012345678", 5⟩])
    ∧ (2 : Int) ≤ 5 := by
  have h := c3_dedup_keeps_max.1
    [⟨"CABLE ASSEMBLY", "012345678", 2⟩, ⟨"CABLE ASSEMBLY", "012345678", 5⟩]
    ⟨"CABLE ASSEMBLY", "012345678", 5⟩ (by decide)
  exact ⟨h.1, h.2 ⟨"CABLE ASSEMBLY", "012345678", 2⟩ (by decide) (by decide)⟩

/-- Claim C4.  The claim (and the parser's own docstring) expect the table
`[["LV","DESCRIPTION","OH QTY"], ["B","BASE ASSEMBLY, OUTRIGGER 012345678","4"]]`
to yield one record with stock number `"012345678"` and quantity 4.  The
code yields **no** record: the NSN search removes spaces first, which glues
the digit run to `"OUTRIGGER"`, so `\\b(\\d{9,10})\\b` finds no boundary, the
material stays empty and the row is dropped. -/
theorem c4_table_scenario_eval :
    parse_bom_pdf
        [⟨[[["LV", "DESCRIPTION", "OH QTY"],
            ["B", "BASE ASSEMBLY, OUTRIGGER 012345678", "4"]]], ""⟩] 0
      = []
    ∧ findNsn ("BASE ASSEMBLY, OUTRIGGER 012345678".data.filter (· ≠ ' ')) = none := by
  constructor
  · decide
  · decide

/-- Claim C5, counterexample.  The standalone digit-only line
`"0123456789"` is **not** captured as the stock number by
`parse_items_from_rows`: the emitted record carries an empty stock number. -/
theorem c5_counterexample :
    parse_items_from_rows ["CABLE ASSEMBLY", "0123456789", "X U EA 9G 3"]
      ≠ [⟨"CABLE ASSEMBLY", "0123456789", 3⟩] := by
  decide

/-- Claim C5, amended.  The scenario yields exactly one record with
description `"CABLE ASSEMBLY"` and quantity 3 but an **empty** stock number:
`parse_items_from_rows` takes stock numbers only from lines starting with
`"NSN"`, and the digit-only line is ignored entirely (its value 123456789
fails the 0–500 quantity bound and it is not a description candidate). -/
theorem c5_amended :
    parse_items_from_rows ["CABLE ASSEMBLY", "0123456789", "X U EA 9G 3"]
      = [⟨"CABLE ASSEMBLY", "", 3⟩] := by
  decide

/-- Claim C6, counterexample.  The 0–500 bound does **not** govern every
cell: `_as_int` in the table path of `parse_bom_pdf` has no magnitude bound,
so an on-hand cell reading `"85090307"` is accepted and the record appears
in the output with quantity 85090307. -/
theorem c6_counterexample :
    parse_bom_pdf
        [⟨[[["DESCRIPTION", "MATERIAL", "OH QTY"],
            ["CABLE ASSEMBLY", "012345678", "85090307"]]], ""⟩] 0
      = [⟨"CABLE ASSEMBLY", "012345678", 85090307⟩]
    ∧ (500 : Int) < 85090307 := by
  constructor
  · decide
  · decide

/-- Claim C6, amended.  In the line parser `parse_items_from_rows` the bound
holds as claimed: every emitted record has `1 ≤ qty ≤ 500`, and the
otherwise-valid record whose only quantity token is `"85090307"` is
discarded and never appears.  The table path of `parse_bom_pdf` ties no
bound to the quantity cell (see the counterexample). -/
theorem c6_amended :
    (∀ (rows : List String) (r : ItemRow), r ∈ parse_items_from_rows rows →
        1 ≤ r.qty ∧ r.qty ≤ 500)
    ∧ parse_items_from_rows ["CABLE ASSEMBLY", "X U EA 9G 85090307"] = [] := by
  constructor
  · intro rows r hr
    exact parse_items_foldl_bound rows ⟨[], none, none⟩ (by simp) r hr
  · decide

/-- Claim C6 witness: the bound theorem applied to a concrete parse. -/
theorem c6_witness :
    (1 : Int) ≤ (⟨"CABLE ASSEMBLY", "", 3⟩ : ItemRow).qty
    ∧ (⟨"CABLE ASSEMBLY", "", 3⟩ : ItemRow).qty ≤ 500 := by
  exact c6_amended.1 ["CABLE ASSEMBLY", "X U EA 9G 3"]
    ⟨"CABLE ASSEMBLY", "", 3⟩ (by decide)

/-- Claim C7, counterexample.  The line heuristics are **not** a fallback
taken only when no usable table is found: on a page whose table already
yields a record, the line pass still contributes a further record of its
own, which survives into the deduplicated output. -/
theorem c7_counterexample :
    pageTableRecords
        ⟨[[["DESCRIPTION", "MATERIAL", "OH QTY"],
           ["CABLE ASSEMBLY", "987654321", "2"]]],
         "OH QTY\nB SPROCKET, 012345678, WIDGET 4"⟩
      = [⟨"CABLE ASSEMBLY", "987654321", 2⟩]
    ∧ (⟨"SPROCKET, , WIDGET", "012345678", 4⟩ : ItemRow)
        ∈ parse_bom_pdf
            [⟨[[["DESCRIPTION", "MATERIAL", "OH QTY"],
                ["CABLE ASSEMBLY", "987654321", "2"]]],
              "OH QTY\nB SPROCKET, 012345678, WIDGET 4"⟩] 0
    ∧ (⟨"SPROCKET, , WIDGET", "012345678", 4⟩ : ItemRow)
        ∉ pageTableRecords
            ⟨[[["DESCRIPTION", "MATERIAL", "OH QTY"],
               ["CABLE ASSEMBLY", "987654321", "2"]]],
             "OH QTY\nB SPROCKET, 012345678, WIDGET 4"⟩ := by
  refine ⟨by decide, by decide, by decide⟩

/-- Claim C7, amended.  The line pass of `parse_bom_pdf` runs on every page
that passes the OH/QTY text detector, regardless of what the table pass
yielded there: every record the line pass contributes on any page reaches
the deduplicated output at its key (with at least its quantity). -/
theorem c7_amended :
    ∀ (pages : List Page) (pg : Page) (r : ItemRow), pg ∈ pages →
      r ∈ pageLineRecords pg →
      ∃ r' ∈ parse_bom_pdf pages 0, dedupKey r' = dedupKey r ∧ r.qty ≤ r'.qty := by
  intro pages pg r hpg hr
  have hmem : r ∈ allRows pages := mem_allRows_of_line hpg hr
  obtain ⟨h1, h2, _⟩ := dedup_good (allRows pages)
  obtain ⟨p, hp, hpk⟩ := h2 r hmem
  obtain ⟨hk, _, hmax⟩ := h1 p hp
  refine ⟨p.2, List.mem_map.mpr ⟨p, hp, rfl⟩, by rw [hk] at hpk ; exact hpk, ?_⟩
  exact hmax r hmem hpk.symm

/-- Claim C7 witness: the amended theorem applied to the concrete two-path
page. -/
theorem c7_witness :
    ∃ r' ∈ parse_bom_pdf
        [⟨[[["DESCRIPTION", "MATERIAL", "OH QTY"],
            ["CABLE ASSEMBLY", "987654321", "2"]]],
          "OH QTY\nB SPROCKET, 012345678, WIDGET 4"⟩] 0,
      dedupKey r' = dedupKey ⟨"SPROCKET, , WIDGET", "012345678", 4⟩
      ∧ (⟨"SPROCKET, , WIDGET", "012345678", 4⟩ : ItemRow).qty ≤ r'.qty := by
  exact c7_amended
    [⟨[[["DESCRIPTION", "MATERIAL", "OH QTY"], ["CABLE ASSEMBLY", "987654321", "2"]]],
      "OH QTY\nB SPROCKET, 012345678, WIDGET 4"⟩]
    ⟨[[["DESCRIPTION", "MATERIAL", "OH QTY"], ["CABLE ASSEMBLY", "987654321", "2"]]],
      "OH QTY\nB SPROCKET, 012345678, WIDGET 4"⟩
    ⟨"SPROCKET, , WIDGET", "012345678", 4⟩ (by decide) (by decide)

/-- Claim C8, counterexample.  `generate_dd1750_from_pdf` does **not**
signal an empty result distinctly: with zero parsed records it still writes
a one-page overlay file and a merged output document (one pristine template
page), so an output file exists. -/
theorem c8_counterexample :
    (generate_dd1750_from_pdf [] [DrawOp.drawString 0 700 "TEMPLATE"]).1 = []
    ∧ (generate_dd1750_from_pdf [] [DrawOp.drawString 0 700 "TEMPLATE"]).2.1 = [[]]
    ∧ (generate_dd1750_from_pdf [] [DrawOp.drawString 0 700 "TEMPLATE"]).2.2
        = [[DrawOp.drawString 0 700 "TEMPLATE"]] := by
  refine ⟨by decide, by decide, by decide⟩

/-- Claim C8, amended.  The Flask route behaves as claimed: when the parse
recovers zero records, `index` returns the distinct user-correctable error
message and builds no output document at all (the overlay/merge code is
never reached); `generate_dd1750_from_pdf`, in contrast, writes output even
then (see the counterexample). -/
theorem c8_amended :
    ∀ (split : String → List String) (pages : List Page) (start : Nat)
      (templateBase : List DrawOp),
      parse_bom_pdf pages start = [] →
      indexPost split pages start templateBase = .errorPage emptyMsg
      ∧ ∀ doc, indexPost split pages start templateBase ≠ .pdfDownload doc := by
  intro split pages start templateBase h
  constructor
  · unfold indexPost
    rw [h]
    rfl
  · intro doc
    unfold indexPost
    rw [h]
    simp

/-- Claim C8 witness: the amended theorem applied to an empty document. -/
theorem c8_witness :
    indexPost (fun _ => []) [] 0 [] = .errorPage emptyMsg := by
  exact (c8_amended (fun _ => []) [] 0 [] (by decide)).1

/-- Claim C9.  The claim states that the base template page is copied afresh
for every overlay page.  `merge_overlay_on_template` in `app.py` does copy,
but `merge_template` in `dd1750_core.py` merges every overlay into the same
base page object, so its second output page also contains the first
overlay's rows. -/
theorem c9_merge_template_eval :
    merge_template [DrawOp.drawString 0 700 "TEMPLATE"]
        [[DrawOp.drawString 110 655 "ROW1"], [DrawOp.drawString 110 655 "ROW2"]]
      = [[DrawOp.drawString 0 700 "TEMPLATE", DrawOp.drawString 110 655 "ROW1"],
         [DrawOp.drawString 0 700 "TEMPLATE", DrawOp.drawString 110 655 "ROW1",
          DrawOp.drawString 110 655 "ROW2"]]
    ∧ merge_overlay_on_template [DrawOp.drawString 0 700 "TEMPLATE"]
        [[DrawOp.drawString 110 655 "ROW1"], [DrawOp.drawString 110 655 "ROW2"]]
      = [[DrawOp.drawString 0 700 "TEMPLATE", DrawOp.drawString 110 655 "ROW1"],
         [DrawOp.drawString 0 700 "TEMPLATE", DrawOp.drawString 110 655 "ROW2"]] := by
  constructor
  · decide
  · decide

/-- Claim C10, counterexample.  A description that wraps to three lines
whose second line is `"AB"` (2 characters) is drawn as two lines but the
second line is kept verbatim, without the `"..."` suffix: the truncation
only appends `"..."` when the kept second line is longer than 3
characters. -/
theorem c10_counterexample :
    2 < (wrapLines (List.replicate 56 'X' ++
          (' ' :: 'A' :: 'B' :: ' ' :: List.replicate 54 'Y'))).length
    ∧ wrappedDescLines (List.replicate 56 'X' ++
          (' ' :: 'A' :: 'B' :: ' ' :: List.replicate 54 'Y'))
        = [List.replicate 56 'X', ['A', 'B']]
    ∧ ¬ (['.', '.', '.'].isSuffixOf ['A', 'B']) := by
  refine ⟨by decide, by decide, by decide⟩

/-- Claim C10, amended.  `draw_wrapped_description` draws at most 2
description lines; when the wrap needs more than 2 lines exactly 2 are
drawn, and the second drawn line ends with `"..."` **provided the kept
second line is longer than 3 characters** (a shorter second line is kept
verbatim, see the counterexample). -/
theorem c10_amended :
    ∀ desc : List Char,
      (wrappedDescLines desc).length ≤ 2
      ∧ (2 < (wrapLines desc).length →
          (wrappedDescLines desc).length = 2
          ∧ (3 < ((wrapLines desc).getD 1 []).length →
              ∃ p, (wrappedDescLines desc).getD 1 [] = p ++ ['.', '.', '.'])) := by
  intro desc
  exact truncLines_spec (wrapLines desc)

/-- Claim C10 witness: the amended theorem applied to a description that
wraps to three lines with a 4-character second line. -/
theorem c10_witness :
    (wrappedDescLines (List.replicate 56 'X' ++
        (' ' :: 'A' :: 'B' :: 'C' :: 'D' :: ' ' :: List.replicate 54 'Y'))).length = 2
    ∧ ∃ p, (wrappedDescLines (List.replicate 56 'X' ++
        (' ' :: 'A' :: 'B' :: 'C' :: 'D' :: ' ' :: List.replicate 54 'Y'))).getD 1 []
        = p ++ ['.', '.', '.'] := by
  have h := (c10_amended (List.replicate 56 'X' ++
    (' ' :: 'A' :: 'B' :: 'C' :: 'D' :: ' ' :: List.replicate 54 'Y'))).2 (by decide)
  exact ⟨h.1, h.2 (by decide)⟩

end DD1750
